import Mathlib

/-!
Shallow embedding of `pco-pedal-sync.py`: a one-shot utility that builds a
deduplicated catalog of remote songs (title, bpm, time signature) and merges
it into the fixed-length song-slot list of a local pedal-project file, using
a two-pass (update-existing, then fill-placeholders) strategy.

Python strings are modelled as `String`, Python floats produced by `float()`
on bpm strings as `ℚ` (the inputs the program meets are decimal literals),
dictionaries with insertion order as association lists, and fallible remote
calls as `Except String`.
-/

namespace PedalSync

/-- Numeric value of a list of ASCII digit characters, most significant first. -/
def digitsVal (l : List Char) : Nat :=
  l.foldl (fun a c => a * 10 + (c.toNat - 48)) 0

/-- Python `str.strip()` on a character list: drop whitespace at both ends. -/
def pyStrip (l : List Char) : List Char :=
  ((l.dropWhile Char.isWhitespace).reverse.dropWhile Char.isWhitespace).reverse

/-- Tests whether `pat` matches at the head of `l`. -/
def leadMatch : List Char → List Char → Bool
  | [], _ => true
  | _ :: _, [] => false
  | a :: pa, b :: lb => a = b && leadMatch pa lb

/-- Model of Python `pat in s` on strings: `pat` occurs somewhere in `l`. -/
def hasSub (pat : List Char) : List Char → Bool
  | [] => leadMatch pat []
  | l@(_ :: rest) => leadMatch pat l || hasSub pat rest

/-- Model of Python `int(s)` on a string: strip surrounding whitespace, allow
one optional sign, then require a nonempty run of decimal digits. Returns
`none` where Python raises `ValueError`. -/
def pyInt? (s : String) : Option Int :=
  let t := pyStrip s.toList
  let sgn : Int × List Char :=
    match t with
    | '-' :: r => (-1, r)
    | '+' :: r => (1, r)
    | r => (1, r)
  if sgn.2 ≠ [] ∧ sgn.2.all Char.isDigit then
    some (sgn.1 * (digitsVal sgn.2 : Int))
  else
    none

/-- Syntactic phase of Python `float(s)` on a bpm string: strip whitespace,
optional sign, decimal digits with an optional single decimal point.
Returns `none` where Python raises `ValueError`, otherwise the sign flag
(`true` = negative), integer-part value, fraction-part value and the number
of fraction digits. -/
def pyFloatParse (s : String) : Option (Bool × Nat × Nat × Nat) :=
  let t := pyStrip s.toList
  let sgn : Bool × List Char :=
    match t with
    | '-' :: r => (true, r)
    | '+' :: r => (false, r)
    | r => (false, r)
  let ip := sgn.2.takeWhile Char.isDigit
  match sgn.2.drop ip.length with
  | [] => if ip = [] then none else some (sgn.1, digitsVal ip, 0, 0)
  | '.' :: fp =>
    if fp.all Char.isDigit ∧ ¬(ip = [] ∧ fp = []) then
      some (sgn.1, digitsVal ip, digitsVal fp, fp.length)
    else
      none
  | _ => none

/-- The rational value of a parsed decimal literal. -/
def decimalVal (p : Bool × Nat × Nat × Nat) : ℚ :=
  (cond p.1 (-1) 1) * ((p.2.1 : ℚ) + (p.2.2.1 : ℚ) / (10 ^ p.2.2.2 : ℚ))

/-- Model of Python `float(s)`: the value of the decimal literal, or `none`
where Python raises `ValueError`. -/
def pyFloat? (s : String) : Option ℚ :=
  (pyFloatParse s).map decimalVal

/-- The function `convert_time_signature` from the source: maps a PCO time-signature
string (or an absent one — Python `if not time_signature_string` treats
`None` and `""` alike) to the pedal project's integer code. -/
def convert_time_signature (tss : Option String) : Nat :=
  match tss with
  | none => 3
  | some s =>
    if s = "" then 3
    else if s = "2/4" then 1
    else if s = "3/4" then 2
    else if s = "4/4" then 3
    else if s = "6/8" then 4
    else
      -- int(time_signature_string.split('/')[0]), with except → 3
      match pyInt? (String.mk (s.toList.takeWhile (fun c => c ≠ '/'))) with
      | none => 3
      | some n =>
        if n = 4 then 3
        else if n = 3 then 2
        else if n = 6 then 1
        else 3

/-- The fallback rule of the normalizer claim, written from the spec's
words: the integer numerator before the first `/` is mapped 4→3, 3→2, 6→1,
and any other numerator or a parse failure yields 3. -/
def specNumeratorCode (n : Option Int) : Nat :=
  if n = some 4 then 3
  else if n = some 3 then 2
  else if n = some 6 then 1
  else 3

/-- A remote arrangement record's relevant attributes. `bpm` is `none` when
the attribute is absent or Python-falsy (the source guards with
`'bpm' in arr['attributes'] and arr['attributes']['bpm']`), otherwise the
raw string handed to `float()`. Likewise for `time_signature`. -/
structure Arrangement where
  bpm : Option String
  time_signature : Option String
deriving DecidableEq

/-- A remote song as seen by the catalog-build loop: its id, its optional
`title` attribute (the source reads `attributes.get('title', 'Unknown Song')`),
and the outcome of fetching its arrangements (`Except.error` models the
exception path caught by the per-song `try`). -/
structure RemoteSong where
  id : String
  title : Option String
  arrangements : Except String (List Arrangement)

/-- The value stored in the `pco_songs` dictionary for one title. -/
structure CatalogEntry where
  title : String
  bpm : ℚ
  metro_time_sig : Nat
deriving DecidableEq

/-- The `pco_songs` dictionary: an insertion-ordered map from title to entry. -/
abbrev Catalog := List (String × CatalogEntry)

/-- Dictionary lookup: first binding of the key, if any. -/
def Catalog.find? (cat : Catalog) (t : String) : Option CatalogEntry :=
  (List.find? (fun p => p.1 = t) cat).map Prod.snd

/-- Python `list(pco_songs.keys())`: the titles in insertion order. -/
def Catalog.keys (cat : Catalog) : List String :=
  cat.map Prod.fst

/-- The per-song body of the catalog-build loop: defaults `bpm = 80`,
`time_sig = 3`; the first arrangement (when the fetch succeeded and returned
a nonempty `data` list) may override bpm (only when present, truthy and
parseable as a float — a parse failure keeps the default) and the time
signature (only when present and truthy, via `convert_time_signature`). -/
def resolveSong (s : RemoteSong) : CatalogEntry :=
  let song_title := s.title.getD "Unknown Song"
  match s.arrangements with
  | .error _ => { title := song_title, bpm := 80, metro_time_sig := 3 }
  | .ok arrangements =>
    match arrangements with
    | [] => { title := song_title, bpm := 80, metro_time_sig := 3 }
    | arr :: _ =>
      let bpm : ℚ :=
        match arr.bpm with
        | none => 80
        | some v =>
          match pyFloat? v with
          | some q => q
          | none => 80
      let time_sig : Nat :=
        match arr.time_signature with
        | none => 3
        | some tss => convert_time_signature (some tss)
      { title := song_title, bpm := bpm, metro_time_sig := time_sig }

/-- The catalog-build loop over the remote enumeration. State: the catalog
so far and `song_count`. Returns the final catalog together with the number
of remote songs the enumeration actually yielded (the `break` on reaching
`max_songs` consumes the song that triggered it and stops the generator). -/
def buildLoop (cap : Nat) : List RemoteSong → Catalog → Nat → Catalog × Nat
  | [], cat, _ => (cat, 0)
  | s :: rest, cat, song_count =>
    if cap ≤ song_count then (cat, 1)
    else
      let t := s.title.getD "Unknown Song"
      if (Catalog.find? cat t).isSome then
        let r := buildLoop cap rest cat song_count
        (r.1, r.2 + 1)
      else
        let r := buildLoop cap rest (cat ++ [(t, resolveSong s)]) (song_count + 1)
        (r.1, r.2 + 1)

/-- Step A: the catalog built from a remote enumeration under the
`max_songs` cap. -/
def buildCatalog (cap : Nat) (songs : List RemoteSong) : Catalog :=
  (buildLoop cap songs [] 0).1

/-- How many remote songs the enumeration yielded before the loop ended. -/
def consumedSongs (cap : Nat) (songs : List RemoteSong) : Nat :=
  (buildLoop cap songs [] 0).2

/-- A slot of the pedal project's `songs` list. `extra` stands for every
field of the slot other than the three the program touches; it is carried
through untouched. -/
structure Slot (α : Type) where
  name : String
  bpm : ℚ
  metro_time_sig : Nat
  extra : α
deriving DecidableEq

/-- Placeholder test from the fill pass:
`song['name'].startswith('Song ') or song['name'] == ''`. -/
def isPlaceholder (n : String) : Bool :=
  leadMatch "Song ".toList n.toList || n = ""

/-- The per-slot effect of the update pass. -/
def updSlot {α : Type} (cat : Catalog) (s : Slot α) : Slot α :=
  match Catalog.find? cat s.name with
  | some e => { s with bpm := e.bpm, metro_time_sig := e.metro_time_sig }
  | none => s

/-- Step B (first pass): for each slot whose name is a key of the catalog,
overwrite its bpm and metro_time_sig from that entry and append the name to
`pco_songs_added`. Returns the updated slots and `pco_songs_added`. -/
def updatePass {α : Type} (cat : Catalog) : List (Slot α) → List (Slot α) × List String
  | [] => ([], [])
  | s :: rest =>
    match Catalog.find? cat s.name with
    | some e =>
      let r := updatePass cat rest
      ({ s with bpm := e.bpm, metro_time_sig := e.metro_time_sig } :: r.1,
        s.name :: r.2)
    | none =>
      let r := updatePass cat rest
      (s :: r.1, r.2)

/-- Step C (second pass): for each slot, if its name is a placeholder and
`pco_songs_added != list(pco_songs.keys())`, scan the catalog in insertion
order for the first title not in `pco_songs_added`; if found, write that
title and its entry's bpm/metro_time_sig into the slot and append the title
to `pco_songs_added`. Returns the slots and the final `pco_songs_added`. -/
def fillPass {α : Type} (cat : Catalog) :
    List (Slot α) → List String → List (Slot α) × List String
  | [], added => ([], added)
  | s :: rest, added =>
    if isPlaceholder s.name ∧ added ≠ Catalog.keys cat then
      match List.find? (fun p => ¬ p.1 ∈ added) cat with
      | some (t, e) =>
        let r := fillPass cat rest (added ++ [t])
        ({ s with name := t, bpm := e.bpm, metro_time_sig := e.metro_time_sig } :: r.1,
          r.2)
      | none =>
        let r := fillPass cat rest added
        (s :: r.1, r.2)
    else
      let r := fillPass cat rest added
      (s :: r.1, r.2)

/-- Both merge passes, as run by `main` on `pedal_project['songs']`. -/
def merge {α : Type} (cat : Catalog) (slots : List (Slot α)) : List (Slot α) :=
  let u := updatePass cat slots
  (fillPass cat u.1 u.2).1

/-- The loaded pedal project: the `songs` slot list plus every other field
of the document, carried opaquely as `extra`. -/
structure ProjectFile (α β : Type) where
  songs : List (Slot α)
  extra : β
deriving DecidableEq

/-- The merge applied to a loaded project: only the `songs` list changes. -/
def mergeFile {α β : Type} (cat : Catalog) (pf : ProjectFile α β) : ProjectFile α β :=
  { pf with songs := merge cat pf.songs }

/-- What one run of `main` did, observably: the exit code, the project
written by the save step (`none` when the save step never ran), whether a
diagnostic was printed on the fatal path, and whether the extra
authentication diagnostic (the `"401" in str(e)` check) was printed. -/
structure RunOutcome (α β : Type) where
  exitCode : Nat
  saved : Option (ProjectFile α β)
  printedDiag : Bool
  printedAuthDiag : Bool
deriving DecidableEq

/-- The body of `main` after config loading: load the pedal project (fatal
on failure), then inside one `try` block enumerate the remote catalog,
build it, merge, and only then save; any failure of the remote enumeration
raises, is printed, gets the extra authentication diagnostic when the error
message contains `"401"`, and exits 1 before the save step. -/
def runSync {α β : Type} (proj : Except String (ProjectFile α β))
    (enum : Except String (List RemoteSong)) (cap : Nat) : RunOutcome α β :=
  match proj with
  | .error _ =>
    { exitCode := 1, saved := none, printedDiag := true, printedAuthDiag := false }
  | .ok pf =>
    match enum with
    | .error msg =>
      { exitCode := 1, saved := none, printedDiag := true,
        printedAuthDiag := hasSub "401".toList msg.toList }
    | .ok songs =>
      { exitCode := 0, saved := some (mergeFile (buildCatalog cap songs) pf),
        printedDiag := false, printedAuthDiag := false }

/-! ## Basic lemmas about the catalog dictionary -/

theorem Catalog.find?_isSome_of_mem_keys {cat : Catalog} {t : String}
    (h : t ∈ Catalog.keys cat) : (Catalog.find? cat t).isSome := by
  induction cat with
  | nil => simp [Catalog.keys] at h
  | cons p rest ih =>
    by_cases hp : p.1 = t
    · simp [Catalog.find?, List.find?_cons_of_pos, hp]
    · have ht : t ∈ Catalog.keys rest := by
        simp [Catalog.keys] at h ⊢
        rcases h with h | h
        · exact absurd h.symm hp
        · exact h
      have := ih ht
      simpa [Catalog.find?, List.find?_cons_of_neg, hp] using this

theorem Catalog.mem_keys_of_find? {cat : Catalog} {t : String} {e : CatalogEntry}
    (h : Catalog.find? cat t = some e) : t ∈ Catalog.keys cat := by
  unfold Catalog.find? at h
  cases hf : List.find? (fun p => p.1 = t) cat with
  | none => rw [hf] at h; simp at h
  | some p =>
    rw [hf] at h
    have hm := List.mem_of_find?_eq_some hf
    have hp := List.find?_some hf
    simp at hp
    subst hp
    exact List.mem_map.mpr ⟨p, hm, rfl⟩

theorem Catalog.find?_eq_none_of_not_mem_keys {cat : Catalog} {t : String}
    (h : t ∉ Catalog.keys cat) : Catalog.find? cat t = none := by
  cases hf : Catalog.find? cat t with
  | none => rfl
  | some e => exact absurd (Catalog.mem_keys_of_find? hf) h

theorem Catalog.find?_append_single {cat : Catalog} {t t0 : String} {e0 : CatalogEntry} :
    Catalog.find? (cat ++ [(t0, e0)]) t =
      (Catalog.find? cat t).or (if t0 = t then some e0 else none) := by
  unfold Catalog.find?
  rw [List.find?_append]
  cases hf : List.find? (fun p => decide (p.1 = t)) cat with
  | some p => simp
  | none =>
    by_cases h : t0 = t
    · simp [h]
    · simp [h]

/-- The first catalog pair whose title is not yet placed is an entry of the
dictionary under its own title (it is a first occurrence of that title). -/
theorem findUnplaced_find? {cat : Catalog} {added : List String}
    {t : String} {e : CatalogEntry}
    (h : List.find? (fun p => ¬ p.1 ∈ added) cat = some (t, e)) :
    Catalog.find? cat t = some e ∧ t ∈ Catalog.keys cat ∧ t ∉ added := by
  induction cat with
  | nil => simp at h
  | cons p rest ih =>
    by_cases hp : p.1 ∈ added
    · rw [List.find?_cons_of_neg _ (by simpa using hp)] at h
      rcases ih h with ⟨h1, h2, h3⟩
      have hne : p.1 ≠ t := fun heq => h3 (heq ▸ hp)
      refine ⟨?_, ?_, h3⟩
      · simpa [Catalog.find?, List.find?_cons_of_neg, hne] using h1
      · simp [Catalog.keys] at h2 ⊢
        exact Or.inr h2
    · rw [List.find?_cons_of_pos _ (by simpa using hp)] at h
      injection h with h
      subst h
      refine ⟨?_, ?_, hp⟩
      · simp [Catalog.find?, List.find?_cons_of_pos]
      · simp [Catalog.keys]

/-! ## C3: the time-signature normalizer -/

/-- C3: the normalizer returns 3 on empty or absent input; 1, 2, 3, 4 for
the exact literals "2/4", "3/4", "4/4", "6/8"; and otherwise maps the
integer numerator before the first `/` by 4→3, 3→2, 6→1 with every other
numerator or a parse failure giving 3 — in particular "6/4" gives 1 and
"5/4" gives 3. -/
theorem claim_C3_normalizer :
    convert_time_signature none = 3 ∧
    convert_time_signature (some "") = 3 ∧
    convert_time_signature (some "2/4") = 1 ∧
    convert_time_signature (some "3/4") = 2 ∧
    convert_time_signature (some "4/4") = 3 ∧
    convert_time_signature (some "6/8") = 4 ∧
    convert_time_signature (some "6/4") = 1 ∧
    convert_time_signature (some "5/4") = 3 ∧
    (∀ s : String, s ≠ "" → s ≠ "2/4" → s ≠ "3/4" → s ≠ "4/4" → s ≠ "6/8" →
      convert_time_signature (some s) =
        specNumeratorCode (pyInt? (String.mk (s.toList.takeWhile (fun c => c ≠ '/'))))) := by
  refine ⟨by decide, by decide, by decide, by decide, by decide, by decide,
    by decide, by decide, ?_⟩
  intro s h0 h2 h3 h4 h6
  rw [convert_time_signature, specNumeratorCode]
  rw [if_neg h0, if_neg h2, if_neg h3, if_neg h4, if_neg h6]
  cases hp : pyInt? (String.mk (s.toList.takeWhile (fun c => c ≠ '/'))) with
  | none => simp
  | some n =>
    by_cases e4 : n = 4
    · subst e4; simp
    · by_cases e3 : n = 3
      · subst e3; simp
      · by_cases e6 : n = 6
        · subst e6; simp
        · simp [e4, e3, e6]

/-- Witness for C3: the fallback clause applied at the concrete input
"12/8", whose numerator 12 is none of 4, 3, 6. -/
theorem claim_C3_normalizer_witness :
    convert_time_signature (some "12/8") =
      specNumeratorCode (pyInt? (String.mk ("12/8".toList.takeWhile (fun c => c ≠ '/')))) :=
  claim_C3_normalizer.2.2.2.2.2.2.2.2 "12/8"
    (by decide) (by decide) (by decide) (by decide) (by decide)

/-! ## C8: the max_songs cap -/

theorem buildLoop_length_le (cap : Nat) (songs : List RemoteSong) :
    ∀ (cat : Catalog) (cnt : Nat),
      (buildLoop cap songs cat cnt).1.length ≤ cat.length + (cap - cnt) := by
  induction songs with
  | nil => intro cat cnt; simp [buildLoop]
  | cons s rest ih =>
    intro cat cnt
    by_cases hc : cap ≤ cnt
    · rw [buildLoop, if_pos hc]
      simp
    · cases hf : (Catalog.find? cat (s.title.getD "Unknown Song")).isSome with
      | true =>
        have h1 := ih cat cnt
        rw [buildLoop, if_neg hc]
        simpa [hf] using h1
      | false =>
        have h2 := ih (cat ++ [(s.title.getD "Unknown Song", resolveSong s)]) (cnt + 1)
        rw [buildLoop, if_neg hc]
        simp only [List.length_append, List.length_singleton] at h2
        simp only [hf, Bool.false_eq_true, if_false]
        have hlt : cnt < cap := Nat.lt_of_not_le hc
        omega

/-- C8: the catalog-build loop never builds more than `max_songs` entries,
and stops enumerating as soon as the cap is reached: once `song_count` has
reached the cap the loop returns without looking at the rest of the
enumeration, and with `max_songs = 1` against a remote catalog of 5 songs
exactly one entry is built and only 2 of the 5 songs are consumed. -/
theorem claim_C8_max_songs_cap :
    (∀ (cap : Nat) (songs : List RemoteSong),
      (buildCatalog cap songs).length ≤ cap) ∧
    (∀ (cap : Nat) (s : RemoteSong) (rest : List RemoteSong) (cat : Catalog) (cnt : Nat),
      cap ≤ cnt → buildLoop cap (s :: rest) cat cnt = (cat, 1)) ∧
    (buildCatalog 1
        [{ id := "1", title := some "a", arrangements := .ok [] },
         { id := "2", title := some "b", arrangements := .ok [] },
         { id := "3", title := some "c", arrangements := .ok [] },
         { id := "4", title := some "d", arrangements := .ok [] },
         { id := "5", title := some "e", arrangements := .ok [] }]).length = 1 ∧
    consumedSongs 1
        [{ id := "1", title := some "a", arrangements := .ok [] },
         { id := "2", title := some "b", arrangements := .ok [] },
         { id := "3", title := some "c", arrangements := .ok [] },
         { id := "4", title := some "d", arrangements := .ok [] },
         { id := "5", title := some "e", arrangements := .ok [] }] = 2 ∧ 2 < 5 := by
  refine ⟨?_, ?_, by decide, by decide, by decide⟩
  · intro cap songs
    have := buildLoop_length_le cap songs [] 0
    simpa [buildCatalog] using this
  · intro cap s rest cat cnt h
    rw [buildLoop, if_pos h]

/-- Witness for C8: the early-stop equation applied with the cap already
reached (`cap = 1`, `song_count = 1`). -/
theorem claim_C8_max_songs_cap_witness :
    buildLoop 1 [{ id := "9", title := some "z", arrangements := .ok [] }] [] 1 = ([], 1) :=
  claim_C8_max_songs_cap.2.1 1 _ [] [] 1 (by decide)

/-! ## C4: title-based deduplication of the catalog -/

theorem buildLoop_keys_nodup (cap : Nat) (songs : List RemoteSong) :
    ∀ (cat : Catalog) (cnt : Nat), (Catalog.keys cat).Nodup →
      (Catalog.keys (buildLoop cap songs cat cnt).1).Nodup := by
  induction songs with
  | nil => intro cat cnt h; simpa [buildLoop] using h
  | cons s rest ih =>
    intro cat cnt h
    by_cases hc : cap ≤ cnt
    · rw [buildLoop, if_pos hc]; exact h
    · cases hf : (Catalog.find? cat (s.title.getD "Unknown Song")).isSome with
      | true =>
        rw [buildLoop, if_neg hc]
        simpa [hf] using ih cat cnt h
      | false =>
        rw [buildLoop, if_neg hc]
        simp only [hf, Bool.false_eq_true, if_false]
        have hnotmem : s.title.getD "Unknown Song" ∉ Catalog.keys cat := by
          intro hm
          have := Catalog.find?_isSome_of_mem_keys hm
          rw [hf] at this
          exact absurd this (by simp)
        have hnew : (Catalog.keys (cat ++ [(s.title.getD "Unknown Song", resolveSong s)])).Nodup := by
          have hkeys : Catalog.keys (cat ++ [(s.title.getD "Unknown Song", resolveSong s)]) =
              Catalog.keys cat ++ [s.title.getD "Unknown Song"] := by
            simp [Catalog.keys]
          rw [hkeys, List.nodup_append]
          refine ⟨h, List.nodup_singleton _, ?_⟩
          intro a ha hb
          simp at hb
          exact hnotmem (hb ▸ ha)
        simpa using ih _ (cnt + 1) hnew

theorem buildLoop_find?_first (cap : Nat) (songs : List RemoteSong) :
    ∀ (cat : Catalog) (cnt : Nat) (t : String) (e : CatalogEntry),
      Catalog.find? (buildLoop cap songs cat cnt).1 t = some e →
      Catalog.find? cat t = some e ∨
        (Catalog.find? cat t = none ∧
          ∃ s, List.find? (fun s => s.title.getD "Unknown Song" = t) songs = some s ∧
            e = resolveSong s) := by
  induction songs with
  | nil =>
    intro cat cnt t e h
    rw [buildLoop] at h
    exact Or.inl h
  | cons s rest ih =>
    intro cat cnt t e h
    by_cases hc : cap ≤ cnt
    · rw [buildLoop, if_pos hc] at h
      exact Or.inl h
    · cases hf : (Catalog.find? cat (s.title.getD "Unknown Song")).isSome with
      | true =>
        rw [buildLoop, if_neg hc] at h
        simp only [hf, if_true] at h
        rcases ih cat cnt t e h with h1 | ⟨h1, s', h2, h3⟩
        · exact Or.inl h1
        · refine Or.inr ⟨h1, s', ?_, h3⟩
          have hne : ¬ (s.title.getD "Unknown Song" = t) := by
            intro heq
            rw [heq, h1] at hf
            simp at hf
          rw [List.find?_cons_of_neg _ (by simpa using hne)]
          exact h2
      | false =>
        rw [buildLoop, if_neg hc] at h
        simp only [hf, Bool.false_eq_true, if_false] at h
        rcases ih _ (cnt + 1) t e h with h1 | ⟨h1, s', h2, h3⟩
        · rw [Catalog.find?_append_single] at h1
          cases hcat : Catalog.find? cat t with
          | some e' =>
            rw [hcat] at h1
            simp at h1
            exact Or.inl (by rw [h1])
          | none =>
            rw [hcat] at h1
            simp only [Option.none_or] at h1
            by_cases heq : s.title.getD "Unknown Song" = t
            · rw [if_pos heq] at h1
              refine Or.inr ⟨rfl, s, ?_, ?_⟩
              · rw [List.find?_cons_of_pos _ (by simpa using heq)]
              · injection h1 with h1
                exact h1.symm
            · rw [if_neg heq] at h1
              simp at h1
        · rw [Catalog.find?_append_single] at h1
          have hcat : Catalog.find? cat t = none := by
            cases hx : Catalog.find? cat t with
            | none => rfl
            | some e' => rw [hx] at h1; simp at h1
          rw [hcat, Option.none_or] at h1
          have hne : ¬ (s.title.getD "Unknown Song" = t) := by
            intro heq
            rw [if_pos heq] at h1
            simp at h1
          refine Or.inr ⟨hcat, s', ?_, h3⟩
          rw [List.find?_cons_of_neg _ (by simpa using hne)]
          exact h2

/-- C4: two remote songs sharing a title collapse into one catalog entry,
derived from the first song with that title; titles already in the catalog
are skipped entirely (the loop continues with the same state, only
consuming the song). Concretely, two "Amazing Grace" songs with different
ids yield exactly one entry, built from the first. -/
theorem claim_C4_title_dedup :
    (∀ (cap : Nat) (songs : List RemoteSong),
      (Catalog.keys (buildCatalog cap songs)).Nodup) ∧
    (∀ (cap : Nat) (songs : List RemoteSong) (t : String) (e : CatalogEntry),
      Catalog.find? (buildCatalog cap songs) t = some e →
      ∃ s, List.find? (fun s => s.title.getD "Unknown Song" = t) songs = some s ∧
        e = resolveSong s) ∧
    (∀ (cap : Nat) (s : RemoteSong) (rest : List RemoteSong) (cat : Catalog) (cnt : Nat),
      ¬ cap ≤ cnt → (Catalog.find? cat (s.title.getD "Unknown Song")).isSome = true →
      (buildLoop cap (s :: rest) cat cnt).1 = (buildLoop cap rest cat cnt).1) ∧
    (buildCatalog 128
        [{ id := "id1", title := some "Amazing Grace",
           arrangements := .ok [{ bpm := none, time_signature := some "3/4" }] },
         { id := "id2", title := some "Amazing Grace", arrangements := .ok [] }] =
      [("Amazing Grace",
        { title := "Amazing Grace", bpm := 80, metro_time_sig := 2 })]) := by
  refine ⟨?_, ?_, ?_, by decide⟩
  · intro cap songs
    exact buildLoop_keys_nodup cap songs [] 0 (by simp [Catalog.keys])
  · intro cap songs t e h
    rcases buildLoop_find?_first cap songs [] 0 t e h with h1 | ⟨_, h2⟩
    · simp [Catalog.find?] at h1
    · exact h2
  · intro cap s rest cat cnt hc hf
    rw [buildLoop, if_neg hc]
    simp [hf]

/-- Witness for C4: the skip equation applied to a remote song whose title
is already a catalog key. -/
theorem claim_C4_title_dedup_witness :
    (buildLoop 128
        [{ id := "id2", title := some "a", arrangements := Except.ok [] }]
        [("a", { title := "a", bpm := 80, metro_time_sig := 3 })] 1).1 =
      (buildLoop 128 ([] : List RemoteSong)
        [("a", { title := "a", bpm := 80, metro_time_sig := 3 })] 1).1 :=
  claim_C4_title_dedup.2.2.1 128 _ [] _ 1 (by decide) (by decide)

/-! ## C1: the update pass -/

theorem updatePass_fst {α : Type} (cat : Catalog) (slots : List (Slot α)) :
    (updatePass cat slots).1 = slots.map (updSlot cat) := by
  induction slots with
  | nil => rfl
  | cons s rest ih =>
    cases hf : Catalog.find? cat s.name with
    | some e => simp [updatePass, hf, updSlot, ih]
    | none => simp [updatePass, hf, updSlot, ih]

theorem updatePass_snd {α : Type} (cat : Catalog) (slots : List (Slot α)) :
    (updatePass cat slots).2 =
      (slots.filter (fun s => (Catalog.find? cat s.name).isSome)).map Slot.name := by
  induction slots with
  | nil => rfl
  | cons s rest ih =>
    cases hf : Catalog.find? cat s.name with
    | some e => simp [updatePass, hf, List.filter_cons, ih]
    | none => simp [updatePass, hf, List.filter_cons, ih]

theorem updSlot_name {α : Type} (cat : Catalog) (s : Slot α) :
    (updSlot cat s).name = s.name := by
  unfold updSlot
  cases Catalog.find? cat s.name <;> rfl

theorem updSlot_extra {α : Type} (cat : Catalog) (s : Slot α) :
    (updSlot cat s).extra = s.extra := by
  unfold updSlot
  cases Catalog.find? cat s.name <;> rfl

/-- C1: the update pass rewrites each slot independently: a slot whose name
is a catalog key gets that entry's bpm and metro_time_sig and keeps its
name, every other slot is untouched; matching is by name membership in the
full catalog, so every slot sharing a catalog title is overwritten from the
same entry and the title is recorded as placed once per slot (see the
concrete three-slot example, where the shared title is recorded twice). -/
theorem claim_C1_update_pass :
    (∀ (α : Type) (cat : Catalog) (slots : List (Slot α)),
      (updatePass cat slots).1 = slots.map (updSlot cat)) ∧
    (∀ (α : Type) (cat : Catalog) (s : Slot α) (e : CatalogEntry),
      Catalog.find? cat s.name = some e →
      updSlot cat s = { s with bpm := e.bpm, metro_time_sig := e.metro_time_sig }) ∧
    (∀ (α : Type) (cat : Catalog) (s : Slot α), (updSlot cat s).name = s.name) ∧
    (∀ (α : Type) (cat : Catalog) (slots : List (Slot α)),
      (updatePass cat slots).2 =
        (slots.filter (fun s => (Catalog.find? cat s.name).isSome)).map Slot.name) ∧
    (updatePass
        [("Amazing Grace", { title := "Amazing Grace", bpm := 72, metro_time_sig := 3 })]
        [{ name := "Amazing Grace", bpm := 1, metro_time_sig := 1, extra := () },
         { name := "Other", bpm := 5, metro_time_sig := 2, extra := () },
         { name := "Amazing Grace", bpm := 2, metro_time_sig := 4, extra := () }] =
      ([{ name := "Amazing Grace", bpm := 72, metro_time_sig := 3, extra := () },
        { name := "Other", bpm := 5, metro_time_sig := 2, extra := () },
        { name := "Amazing Grace", bpm := 72, metro_time_sig := 3, extra := () }],
       ["Amazing Grace", "Amazing Grace"])) := by
  refine ⟨fun α => updatePass_fst, ?_, fun α => updSlot_name, fun α => updatePass_snd,
    by decide⟩
  intro α cat s e hf
  unfold updSlot
  rw [hf]

/-- Witness for C1: the per-slot overwrite equation at a concrete slot and
entry. -/
theorem claim_C1_update_pass_witness :
    updSlot [("W", { title := "W", bpm := 72, metro_time_sig := 3 })]
        { name := "W", bpm := 1, metro_time_sig := 1, extra := () } =
      { name := "W", bpm := 72, metro_time_sig := 3, extra := () } :=
  claim_C1_update_pass.2.1 Unit _ _
    { title := "W", bpm := 72, metro_time_sig := 3 } (by decide)

/-! ## C2: the fill pass -/

/-- Modelled from the spec (Step C): visit the slots in order; while at
least one catalog title is not yet placed, a placeholder slot (empty name
or default "Song <n>"-style name) receives the first not-yet-placed catalog
entry in catalog insertion order — name, bpm and time-signature fields —
and the title is marked placed; once every catalog title has been placed no
further slot is modified. -/
def specFill {α : Type} (cat : Catalog) : List (Slot α) → List String → List (Slot α)
  | [], _ => []
  | s :: rest, placed =>
    match List.find? (fun p => ¬ p.1 ∈ placed) cat with
    | some (t, e) =>
      if isPlaceholder s.name then
        { s with name := t, bpm := e.bpm, metro_time_sig := e.metro_time_sig } ::
          specFill cat rest (placed ++ [t])
      else
        s :: specFill cat rest placed
    | none => s :: specFill cat rest placed

theorem fillPass_eq_specFill {α : Type} (cat : Catalog) (slots : List (Slot α)) :
    ∀ added, (fillPass cat slots added).1 = specFill cat slots added := by
  induction slots with
  | nil => intro added; rfl
  | cons s rest ih =>
    intro added
    cases hf : List.find? (fun p => ¬ p.1 ∈ added) cat with
    | some p =>
      obtain ⟨t, e⟩ := p
      have hne : added ≠ Catalog.keys cat := by
        rcases findUnplaced_find? hf with ⟨_, hmem, hnadd⟩
        intro heq
        exact hnadd (by rw [heq]; exact hmem)
      by_cases hp : isPlaceholder s.name
      · rw [fillPass, if_pos ⟨hp, hne⟩, hf, specFill, hf]
        simp [hp, ih]
      · rw [fillPass, if_neg (fun hg => hp hg.1), specFill, hf]
        simp [hp, ih]
    | none =>
      rw [specFill, hf]
      by_cases hg : (isPlaceholder s.name : Prop) ∧ added ≠ Catalog.keys cat
      · rw [fillPass, if_pos hg, hf]
        simp [ih]
      · rw [fillPass, if_neg hg]
        simp [ih]

/-- Once every catalog title is in `pco_songs_added`, the fill pass changes
nothing: slots and placed list come back as they went in. -/
theorem fillPass_all_placed {α : Type} (cat : Catalog) (slots : List (Slot α)) :
    ∀ added, (∀ p ∈ cat, p.1 ∈ added) → fillPass cat slots added = (slots, added) := by
  induction slots with
  | nil => intro added _; rfl
  | cons s rest ih =>
    intro added hall
    have hf : List.find? (fun p => ¬ p.1 ∈ added) cat = none := by
      rw [List.find?_eq_none]
      intro p hp
      simp [hall p hp]
    by_cases hg : (isPlaceholder s.name : Prop) ∧ added ≠ Catalog.keys cat
    · rw [fillPass, if_pos hg, hf, ih added hall]
    · rw [fillPass, if_neg hg, ih added hall]

/-- C2: the fill pass equals the spec's description — placeholder slots are
visited in order and, only while at least one catalog title remains
unplaced, each receives the first not-yet-placed catalog entry in catalog
insertion order; once every entry has been placed, no further slot is
modified. Concretely, placeholders "Song 1", "Song 2" receive "A" then "B"
in catalog insertion order. -/
theorem claim_C2_fill_pass :
    (∀ (α : Type) (cat : Catalog) (slots : List (Slot α)) (added : List String),
      (fillPass cat slots added).1 = specFill cat slots added) ∧
    (∀ (α : Type) (cat : Catalog) (slots : List (Slot α)) (added : List String),
      (∀ p ∈ cat, p.1 ∈ added) → fillPass cat slots added = (slots, added)) ∧
    (merge
        [("A", { title := "A", bpm := 100, metro_time_sig := 3 }),
         ("B", { title := "B", bpm := 110, metro_time_sig := 3 })]
        [{ name := "Song 1", bpm := 1, metro_time_sig := 1, extra := () },
         { name := "Song 2", bpm := 1, metro_time_sig := 1, extra := () }] =
      [{ name := "A", bpm := 100, metro_time_sig := 3, extra := () },
       { name := "B", bpm := 110, metro_time_sig := 3, extra := () }]) :=
  ⟨fun α cat slots added => fillPass_eq_specFill cat slots added,
   fun α cat slots added h => fillPass_all_placed cat slots added h,
   by decide⟩

/-- Witness for C2: with every catalog title already placed, the fill pass
leaves a placeholder slot untouched. -/
theorem claim_C2_fill_pass_witness :
    fillPass [("A", { title := "A", bpm := 100, metro_time_sig := 3 })]
        [{ name := "Song 1", bpm := 1, metro_time_sig := 1, extra := () }] ["A"] =
      ([{ name := "Song 1", bpm := 1, metro_time_sig := 1, extra := () }], ["A"]) :=
  claim_C2_fill_pass.2.1 Unit _ _ ["A"] (by decide)

/-! ## C9: frame — only name, bpm, metro_time_sig of slots change -/

theorem fillPass_length {α : Type} (cat : Catalog) (slots : List (Slot α)) :
    ∀ added, (fillPass cat slots added).1.length = slots.length := by
  induction slots with
  | nil => intro added; rfl
  | cons s rest ih =>
    intro added
    by_cases hg : (isPlaceholder s.name : Prop) ∧ added ≠ Catalog.keys cat
    · rw [fillPass, if_pos hg]
      cases hf : List.find? (fun p => ¬ p.1 ∈ added) cat with
      | some p => obtain ⟨t, e⟩ := p; simp [ih]
      | none => simp [ih]
    · rw [fillPass, if_neg hg]
      simp [ih]

theorem fillPass_extra {α : Type} (cat : Catalog) (slots : List (Slot α)) :
    ∀ added, (fillPass cat slots added).1.map Slot.extra = slots.map Slot.extra := by
  induction slots with
  | nil => intro added; rfl
  | cons s rest ih =>
    intro added
    by_cases hg : (isPlaceholder s.name : Prop) ∧ added ≠ Catalog.keys cat
    · rw [fillPass, if_pos hg]
      cases hf : List.find? (fun p => ¬ p.1 ∈ added) cat with
      | some p => obtain ⟨t, e⟩ := p; simp [ih]
      | none => simp [ih]
    · rw [fillPass, if_neg hg]
      simp [ih]

theorem merge_length {α : Type} (cat : Catalog) (slots : List (Slot α)) :
    (merge cat slots).length = slots.length := by
  unfold merge
  rw [fillPass_length, updatePass_fst, List.length_map]

theorem merge_extra {α : Type} (cat : Catalog) (slots : List (Slot α)) :
    (merge cat slots).map Slot.extra = slots.map Slot.extra := by
  unfold merge
  rw [fillPass_extra, updatePass_fst, List.map_map]
  have : (Slot.extra ∘ updSlot cat : Slot α → α) = Slot.extra := by
    funext s
    exact updSlot_extra cat s
  rw [this]

/-- C9: through the merge, the songs sequence keeps its length, every field
of a slot other than name, bpm and metro_time_sig is unmodified, and every
field of the document other than `songs` is unmodified in the saved
output. -/
theorem claim_C9_frame :
    (∀ (α : Type) (cat : Catalog) (slots : List (Slot α)),
      (merge cat slots).length = slots.length) ∧
    (∀ (α : Type) (cat : Catalog) (slots : List (Slot α)),
      (merge cat slots).map Slot.extra = slots.map Slot.extra) ∧
    (∀ (α β : Type) (cat : Catalog) (pf : ProjectFile α β),
      (mergeFile cat pf).extra = pf.extra ∧ (mergeFile cat pf).songs = merge cat pf.songs) :=
  ⟨fun _ => merge_length, fun _ => merge_extra, fun _ _ _ _ => ⟨rfl, rfl⟩⟩

/-! ## C7: per-song defaulting and local recovery -/

/-- C7: a song admitted to the catalog gets bpm 80 unless its first
arrangement carries a present, truthy, parseable bpm (a parse failure keeps
80), time_sig 3 unless the first arrangement carries a time signature
(then normalized), and a failed arrangement fetch yields the defaults while
the catalog loop continues with the remaining songs instead of aborting. -/
theorem claim_C7_defaults_and_recovery :
    (∀ (s : RemoteSong) (m : String), s.arrangements = .error m →
      resolveSong s = { title := s.title.getD "Unknown Song", bpm := 80, metro_time_sig := 3 }) ∧
    (∀ s : RemoteSong, s.arrangements = .ok [] →
      resolveSong s = { title := s.title.getD "Unknown Song", bpm := 80, metro_time_sig := 3 }) ∧
    (∀ (s : RemoteSong) (arr : Arrangement) (rest : List Arrangement),
      s.arrangements = .ok (arr :: rest) → arr.bpm = none → (resolveSong s).bpm = 80) ∧
    (∀ (s : RemoteSong) (arr : Arrangement) (rest : List Arrangement) (v : String),
      s.arrangements = .ok (arr :: rest) → arr.bpm = some v → pyFloat? v = none →
      (resolveSong s).bpm = 80) ∧
    (∀ (s : RemoteSong) (arr : Arrangement) (rest : List Arrangement) (v : String) (q : ℚ),
      s.arrangements = .ok (arr :: rest) → arr.bpm = some v → pyFloat? v = some q →
      (resolveSong s).bpm = q) ∧
    (∀ (s : RemoteSong) (arr : Arrangement) (rest : List Arrangement),
      s.arrangements = .ok (arr :: rest) → arr.time_signature = none →
      (resolveSong s).metro_time_sig = 3) ∧
    (∀ (s : RemoteSong) (arr : Arrangement) (rest : List Arrangement) (tss : String),
      s.arrangements = .ok (arr :: rest) → arr.time_signature = some tss →
      (resolveSong s).metro_time_sig = convert_time_signature (some tss)) ∧
    (∀ (cap : Nat) (s : RemoteSong) (rest : List RemoteSong) (cat : Catalog) (cnt : Nat),
      ¬ cap ≤ cnt → Catalog.find? cat (s.title.getD "Unknown Song") = none →
      buildLoop cap (s :: rest) cat cnt =
        ((buildLoop cap rest (cat ++ [(s.title.getD "Unknown Song", resolveSong s)]) (cnt + 1)).1,
         (buildLoop cap rest (cat ++ [(s.title.getD "Unknown Song", resolveSong s)]) (cnt + 1)).2 + 1)) := by
  refine ⟨?_, ?_, ?_, ?_, ?_, ?_, ?_, ?_⟩
  · intro s m h
    unfold resolveSong
    rw [h]
  · intro s h
    unfold resolveSong
    rw [h]
  · intro s arr rest h hb
    simp [resolveSong, h, hb]
  · intro s arr rest v h hb hp
    simp [resolveSong, h, hb, hp]
  · intro s arr rest v q h hb hp
    simp [resolveSong, h, hb, hp]
  · intro s arr rest h ht
    simp [resolveSong, h, ht]
  · intro s arr rest tss h ht
    simp [resolveSong, h, ht]
  · intro cap s rest cat cnt hc hf
    rw [buildLoop, if_neg hc]
    simp [hf]

/-- Witness for C7: a song whose arrangement fetch failed still lands in
the catalog with the default bpm 80 and time_sig 3. -/
theorem claim_C7_defaults_and_recovery_witness :
    resolveSong { id := "id7", title := some "T", arrangements := .error "boom" } =
      { title := "T", bpm := 80, metro_time_sig := 3 } :=
  claim_C7_defaults_and_recovery.1 _ "boom" rfl

/-! ## C6: failures while talking to the remote catalog prevent any save -/

/-- C6: when the remote enumeration fails, the run exits 1 after printing a
diagnostic (with the extra authentication message exactly when the error
carries an HTTP 401 marker) and the save step never runs; conversely a save
happens only on a run whose remote enumeration succeeded and whose full
merge completed, with exit code 0. -/
theorem claim_C6_no_partial_save :
    (∀ (α β : Type) (pf : ProjectFile α β) (msg : String) (cap : Nat),
      runSync (.ok pf) (.error msg) cap =
        { exitCode := 1, saved := none, printedDiag := true,
          printedAuthDiag := hasSub "401".toList msg.toList }) ∧
    (∀ (α β : Type) (proj : Except String (ProjectFile α β))
        (enum : Except String (List RemoteSong)) (cap : Nat) (f : ProjectFile α β),
      (runSync proj enum cap).saved = some f →
      ∃ pf songs, proj = .ok pf ∧ enum = .ok songs ∧
        f = mergeFile (buildCatalog cap songs) pf ∧
        (runSync proj enum cap).exitCode = 0) ∧
    (hasSub "401".toList "HTTP Error 401: Unauthorized".toList = true ∧
     hasSub "401".toList "connection timed out".toList = false) := by
  refine ⟨fun α β pf msg cap => rfl, ?_, by decide, by decide⟩
  intro α β proj enum cap f h
  cases proj with
  | error m => simp [runSync] at h
  | ok pf =>
    cases enum with
    | error m => simp [runSync] at h
    | ok songs =>
      simp [runSync] at h
      exact ⟨pf, songs, rfl, rfl, h.symm, rfl⟩

/-- Witness for C6: on a successful run the saved file is exactly the merge
of the loaded project (empty project, empty enumeration). -/
theorem claim_C6_no_partial_save_witness :
    ∃ (pf : ProjectFile Unit Unit) (songs : List RemoteSong),
      (Except.ok ({ songs := [], extra := () } : ProjectFile Unit Unit) :
          Except String (ProjectFile Unit Unit)) = .ok pf ∧
        (Except.ok [] : Except String (List RemoteSong)) = .ok songs ∧
        ({ songs := [], extra := () } : ProjectFile Unit Unit) =
          mergeFile (buildCatalog 0 songs) pf ∧
        (runSync
            (Except.ok ({ songs := [], extra := () } : ProjectFile Unit Unit) :
              Except String (ProjectFile Unit Unit))
            (Except.ok [] : Except String (List RemoteSong)) 0).exitCode = 0 :=
  claim_C6_no_partial_save.2.1 Unit Unit _ _ 0 { songs := [], extra := () } (by decide)

/-! ## C10: a slot can be updated by the update pass and then renamed by
the fill pass -/

/-- C10: the fill pass tests only the slot's current name, so with catalog
["Song 3" ↦ (72, 2), "X" ↦ (100, 3)] and slots named "Song 3" and
"Song 9", the update pass first overwrites the "Song 3" slot from its
entry, the fill pass then renames that same slot to "X", and the title
"Song 3" ends the run occupying no slot under its own name. -/
theorem claim_C10_placeholder_shaped_title :
    (updatePass
        [("Song 3", { title := "Song 3", bpm := 72, metro_time_sig := 2 }),
         ("X", { title := "X", bpm := 100, metro_time_sig := 3 })]
        [{ name := "Song 3", bpm := 1, metro_time_sig := 1, extra := () },
         { name := "Song 9", bpm := 1, metro_time_sig := 1, extra := () }]).1 =
      [{ name := "Song 3", bpm := 72, metro_time_sig := 2, extra := () },
       { name := "Song 9", bpm := 1, metro_time_sig := 1, extra := () }] ∧
    merge
        [("Song 3", { title := "Song 3", bpm := 72, metro_time_sig := 2 }),
         ("X", { title := "X", bpm := 100, metro_time_sig := 3 })]
        [{ name := "Song 3", bpm := 1, metro_time_sig := 1, extra := () },
         { name := "Song 9", bpm := 1, metro_time_sig := 1, extra := () }] =
      [{ name := "X", bpm := 100, metro_time_sig := 3, extra := () },
       { name := "Song 9", bpm := 1, metro_time_sig := 1, extra := () }] ∧
    (∀ s ∈ merge
        [("Song 3", { title := "Song 3", bpm := 72, metro_time_sig := 2 }),
         ("X", { title := "X", bpm := 100, metro_time_sig := 3 })]
        [{ name := "Song 3", bpm := 1, metro_time_sig := 1, extra := () },
         { name := "Song 9", bpm := 1, metro_time_sig := 1, extra := () }],
      s.name ≠ "Song 3") := by
  refine ⟨by decide, by decide, by decide⟩

/-! ## C5: idempotence of the merge -/

theorem fillPass_cons_fill {α : Type} {cat : Catalog} {s : Slot α}
    {rest : List (Slot α)} {added : List String} {t : String} {e : CatalogEntry}
    (hg : (isPlaceholder s.name : Prop) ∧ added ≠ Catalog.keys cat)
    (hfind : List.find? (fun p => ¬ p.1 ∈ added) cat = some (t, e)) :
    fillPass cat (s :: rest) added =
      ({ s with name := t, bpm := e.bpm, metro_time_sig := e.metro_time_sig } ::
        (fillPass cat rest (added ++ [t])).1,
       (fillPass cat rest (added ++ [t])).2) := by
  rw [fillPass, if_pos hg, hfind]

theorem fillPass_cons_exhausted {α : Type} {cat : Catalog} {s : Slot α}
    {rest : List (Slot α)} {added : List String}
    (hg : (isPlaceholder s.name : Prop) ∧ added ≠ Catalog.keys cat)
    (hfind : List.find? (fun p => ¬ p.1 ∈ added) cat = none) :
    fillPass cat (s :: rest) added =
      (s :: (fillPass cat rest added).1, (fillPass cat rest added).2) := by
  rw [fillPass, if_pos hg, hfind]

theorem fillPass_cons_skip {α : Type} {cat : Catalog} {s : Slot α}
    {rest : List (Slot α)} {added : List String}
    (hg : ¬ ((isPlaceholder s.name : Prop) ∧ added ≠ Catalog.keys cat)) :
    fillPass cat (s :: rest) added =
      (s :: (fillPass cat rest added).1, (fillPass cat rest added).2) := by
  rw [fillPass, if_neg hg]

/-- A slot already carries its catalog entry's values whenever its name is
a catalog key. Such slots are exactly the fixed points of the update pass. -/
def SlotOK {α : Type} (cat : Catalog) (s : Slot α) : Prop :=
  ∀ e, Catalog.find? cat s.name = some e →
    s.bpm = e.bpm ∧ s.metro_time_sig = e.metro_time_sig

/-- The `pco_songs_added` list the update pass produces for a slot list. -/
def addedOf {α : Type} (cat : Catalog) (slots : List (Slot α)) : List String :=
  (slots.filter (fun s => (Catalog.find? cat s.name).isSome)).map Slot.name

theorem mem_addedOf {α : Type} {cat : Catalog} {slots : List (Slot α)} {k : String} :
    k ∈ addedOf cat slots ↔
      ∃ s ∈ slots, s.name = k ∧ (Catalog.find? cat k).isSome := by
  unfold addedOf
  simp only [List.mem_map, List.mem_filter]
  constructor
  · rintro ⟨s, ⟨hs, hf⟩, hn⟩
    exact ⟨s, hs, hn, by rw [← hn]; simpa using hf⟩
  · rintro ⟨s, hs, hn, hf⟩
    exact ⟨s, ⟨hs, by rw [hn]; simpa using hf⟩, hn⟩

theorem updSlot_slotOK {α : Type} (cat : Catalog) (s : Slot α) :
    SlotOK cat (updSlot cat s) := by
  intro e hf
  rw [updSlot_name] at hf
  unfold updSlot
  rw [hf]
  exact ⟨rfl, rfl⟩

theorem updSlot_eq_self {α : Type} {cat : Catalog} {s : Slot α} (h : SlotOK cat s) :
    updSlot cat s = s := by
  unfold updSlot
  cases hf : Catalog.find? cat s.name with
  | none => rfl
  | some e =>
    obtain ⟨h1, h2⟩ := h e hf
    cases s
    simp_all

theorem map_updSlot_eq_self {α : Type} {cat : Catalog} :
    ∀ {slots : List (Slot α)}, (∀ s ∈ slots, SlotOK cat s) →
      slots.map (updSlot cat) = slots := by
  intro slots h
  induction slots with
  | nil => rfl
  | cons s rest ih =>
    rw [List.map_cons, updSlot_eq_self (h s (by simp)),
      ih (fun x hx => h x (by simp [hx]))]

theorem updatePass_eq_of_synced {α : Type} {cat : Catalog} {slots : List (Slot α)}
    (h : ∀ s ∈ slots, SlotOK cat s) :
    updatePass cat slots = (slots, addedOf cat slots) := by
  have h1 : (updatePass cat slots).1 = slots := by
    rw [updatePass_fst]
    exact map_updSlot_eq_self h
  have h2 : (updatePass cat slots).2 = addedOf cat slots := updatePass_snd cat slots
  calc updatePass cat slots
      = ((updatePass cat slots).1, (updatePass cat slots).2) := rfl
    _ = (slots, addedOf cat slots) := by rw [h1, h2]

theorem fillPass_slotOK {α : Type} (cat : Catalog) (slots : List (Slot α)) :
    ∀ (added : List String), (∀ s ∈ slots, SlotOK cat s) →
      ∀ s' ∈ (fillPass cat slots added).1, SlotOK cat s' := by
  induction slots with
  | nil =>
    intro added _ s' hs'
    simp [fillPass] at hs'
  | cons s rest ih =>
    intro added h s' hs'
    have hrest : ∀ x ∈ rest, SlotOK cat x := fun x hx => h x (by simp [hx])
    by_cases hg : (isPlaceholder s.name : Prop) ∧ added ≠ Catalog.keys cat
    · cases hfind : List.find? (fun p => ¬ p.1 ∈ added) cat with
      | some p =>
        obtain ⟨t, e⟩ := p
        rw [fillPass_cons_fill hg hfind] at hs'
        rcases List.mem_cons.mp hs' with hs' | hs'
        · subst hs'
          intro e' hf'
          rcases findUnplaced_find? hfind with ⟨hfe, _, _⟩
          have hf'' : Catalog.find? cat t = some e' := hf'
          rw [hfe] at hf''
          injection hf'' with hf''
          subst hf''
          exact ⟨rfl, rfl⟩
        · exact ih (added ++ [t]) hrest s' hs'
      | none =>
        rw [fillPass_cons_exhausted hg hfind] at hs'
        rcases List.mem_cons.mp hs' with hs' | hs'
        · subst hs'; exact h s' (by simp)
        · exact ih added hrest s' hs'
    · rw [fillPass_cons_skip hg] at hs'
      rcases List.mem_cons.mp hs' with hs' | hs'
      · subst hs'; exact h s' (by simp)
      · exact ih added hrest s' hs'

theorem fillPass_added_mono {α : Type} (cat : Catalog) (slots : List (Slot α)) :
    ∀ (added : List String) (k : String), k ∈ added →
      k ∈ (fillPass cat slots added).2 := by
  induction slots with
  | nil => intro added k hk; simpa [fillPass] using hk
  | cons s rest ih =>
    intro added k hk
    by_cases hg : (isPlaceholder s.name : Prop) ∧ added ≠ Catalog.keys cat
    · cases hfind : List.find? (fun p => ¬ p.1 ∈ added) cat with
      | some p =>
        obtain ⟨t, e⟩ := p
        rw [fillPass_cons_fill hg hfind]
        exact ih (added ++ [t]) k (by simp [hk])
      | none =>
        rw [fillPass_cons_exhausted hg hfind]
        exact ih added k hk
    · rw [fillPass_cons_skip hg]
      exact ih added k hk

theorem fillPass_placeholder_all_placed {α : Type} (cat : Catalog)
    (H : ∀ p ∈ cat, isPlaceholder p.1 = false) (slots : List (Slot α)) :
    ∀ (added : List String), ∀ s' ∈ (fillPass cat slots added).1,
      isPlaceholder s'.name = true →
      ∀ k ∈ Catalog.keys cat, k ∈ (fillPass cat slots added).2 := by
  induction slots with
  | nil =>
    intro added s' hs'
    simp [fillPass] at hs'
  | cons s rest ih =>
    intro added s' hs' hph k hk
    by_cases hg : (isPlaceholder s.name : Prop) ∧ added ≠ Catalog.keys cat
    · cases hfind : List.find? (fun p => ¬ p.1 ∈ added) cat with
      | some p =>
        obtain ⟨t, e⟩ := p
        rw [fillPass_cons_fill hg hfind] at hs' ⊢
        rcases List.mem_cons.mp hs' with hs' | hs'
        · exfalso
          rcases findUnplaced_find? hfind with ⟨_, hmem, _⟩
          obtain ⟨p', hp', hp'e⟩ := List.mem_map.mp hmem
          have hfalse := H p' hp'
          rw [hp'e] at hfalse
          subst hs'
          have hph' : isPlaceholder t = true := hph
          rw [hph'] at hfalse
          simp at hfalse
        · exact ih (added ++ [t]) s' hs' hph k hk
      | none =>
        rw [fillPass_cons_exhausted hg hfind] at hs' ⊢
        have hall : ∀ p ∈ cat, p.1 ∈ added := by
          intro p hp
          have := List.find?_eq_none.mp hfind p hp
          simpa using this
        obtain ⟨p, hpmem, hpk⟩ := List.mem_map.mp hk
        exact fillPass_added_mono cat rest added k (hpk ▸ hall p hpmem)
    · rw [fillPass_cons_skip hg] at hs' ⊢
      rcases List.mem_cons.mp hs' with hs' | hs'
      · subst hs'
        have hkeq : added = Catalog.keys cat := by
          by_contra hne
          exact hg ⟨hph, hne⟩
        exact fillPass_added_mono cat rest added k (by rw [hkeq]; exact hk)
      · exact ih added s' hs' hph k hk

theorem fillPass_added_src {α : Type} (cat : Catalog) (slots : List (Slot α)) :
    ∀ (added : List String) (k : String), k ∈ (fillPass cat slots added).2 →
      k ∈ added ∨
        ∃ s' ∈ (fillPass cat slots added).1,
          s'.name = k ∧ (Catalog.find? cat k).isSome := by
  induction slots with
  | nil =>
    intro added k hk
    exact Or.inl (by simpa [fillPass] using hk)
  | cons s rest ih =>
    intro added k hk
    by_cases hg : (isPlaceholder s.name : Prop) ∧ added ≠ Catalog.keys cat
    · cases hfind : List.find? (fun p => ¬ p.1 ∈ added) cat with
      | some p =>
        obtain ⟨t, e⟩ := p
        rw [fillPass_cons_fill hg hfind] at hk ⊢
        rcases ih (added ++ [t]) k hk with h1 | ⟨s', hs', hn, hf⟩
        · rcases List.mem_append.mp h1 with h1 | h1
          · exact Or.inl h1
          · have hkt : k = t := by simpa using h1
            subst hkt
            rcases findUnplaced_find? hfind with ⟨hfe, _, _⟩
            exact Or.inr ⟨_, List.mem_cons_self _ _, rfl, by simp [hfe]⟩
        · exact Or.inr ⟨s', by simp [hs'], hn, hf⟩
      | none =>
        rw [fillPass_cons_exhausted hg hfind] at hk ⊢
        rcases ih added k hk with h1 | ⟨s', hs', hn, hf⟩
        · exact Or.inl h1
        · exact Or.inr ⟨s', by simp [hs'], hn, hf⟩
    · rw [fillPass_cons_skip hg] at hk ⊢
      rcases ih added k hk with h1 | ⟨s', hs', hn, hf⟩
      · exact Or.inl h1
      · exact Or.inr ⟨s', by simp [hs'], hn, hf⟩

theorem fillPass_keeps_nonplaceholder {α : Type} (cat : Catalog)
    (slots : List (Slot α)) :
    ∀ (added : List String) (s : Slot α), s ∈ slots →
      isPlaceholder s.name = false → s ∈ (fillPass cat slots added).1 := by
  induction slots with
  | nil => intro _ s hs; simp at hs
  | cons s0 rest ih =>
    intro added s hs hnp
    rcases List.mem_cons.mp hs with hs | hs
    · subst hs
      have hg : ¬ ((isPlaceholder s.name : Prop) ∧ added ≠ Catalog.keys cat) := by
        intro hg
        rw [hnp] at hg
        exact Bool.false_ne_true hg.1
      rw [fillPass_cons_skip hg]
      simp
    · by_cases hg : (isPlaceholder s0.name : Prop) ∧ added ≠ Catalog.keys cat
      · cases hfind : List.find? (fun p => ¬ p.1 ∈ added) cat with
        | some p =>
          obtain ⟨t, e⟩ := p
          rw [fillPass_cons_fill hg hfind]
          exact List.mem_cons_of_mem _ (ih (added ++ [t]) s hs hnp)
        | none =>
          rw [fillPass_cons_exhausted hg hfind]
          exact List.mem_cons_of_mem _ (ih added s hs hnp)
      · rw [fillPass_cons_skip hg]
        exact List.mem_cons_of_mem _ (ih added s hs hnp)

theorem fillPass_no_placeholder {α : Type} (cat : Catalog) (slots : List (Slot α)) :
    ∀ (added : List String), (∀ s ∈ slots, isPlaceholder s.name = false) →
      fillPass cat slots added = (slots, added) := by
  induction slots with
  | nil => intro added _; rfl
  | cons s rest ih =>
    intro added h
    have hg : ¬ ((isPlaceholder s.name : Prop) ∧ added ≠ Catalog.keys cat) := by
      intro hg
      have := h s (by simp)
      rw [this] at hg
      exact Bool.false_ne_true hg.1
    rw [fillPass_cons_skip hg, ih added (fun x hx => h x (by simp [hx]))]

theorem merge_idem {α : Type} (cat : Catalog)
    (H : ∀ p ∈ cat, isPlaceholder p.1 = false) (slots : List (Slot α)) :
    merge cat (merge cat slots) = merge cat slots := by
  have hsync1 : ∀ s ∈ (updatePass cat slots).1, SlotOK cat s := by
    intro s hs
    rw [updatePass_fst] at hs
    obtain ⟨s0, _, hmap⟩ := List.mem_map.mp hs
    rw [← hmap]
    exact updSlot_slotOK cat s0
  have hsyncP1 : ∀ s ∈ merge cat slots, SlotOK cat s :=
    fillPass_slotOK cat (updatePass cat slots).1 (updatePass cat slots).2 hsync1
  have hup2 : updatePass cat (merge cat slots) =
      (merge cat slots, addedOf cat (merge cat slots)) :=
    updatePass_eq_of_synced hsyncP1
  have hkeyfalse : ∀ k ∈ Catalog.keys cat, isPlaceholder k = false := by
    intro k hk
    obtain ⟨p, hp, hpk⟩ := List.mem_map.mp hk
    rw [← hpk]
    exact H p hp
  have hfill2 : fillPass cat (merge cat slots) (addedOf cat (merge cat slots)) =
      (merge cat slots, addedOf cat (merge cat slots)) := by
    by_cases hpl : ∃ s' ∈ merge cat slots, isPlaceholder s'.name = true
    · obtain ⟨s', hs', hph⟩ := hpl
      have hkeys1 : ∀ k ∈ Catalog.keys cat,
          k ∈ (fillPass cat (updatePass cat slots).1 (updatePass cat slots).2).2 :=
        fillPass_placeholder_all_placed cat H (updatePass cat slots).1
          (updatePass cat slots).2 s' hs' hph
      have hkeysP1 : ∀ k ∈ Catalog.keys cat, k ∈ addedOf cat (merge cat slots) := by
        intro k hk
        rcases fillPass_added_src cat (updatePass cat slots).1 (updatePass cat slots).2
            k (hkeys1 k hk) with h1 | ⟨s2, hs2, hn, hf⟩
        · rw [updatePass_snd] at h1
          have h1' : k ∈ addedOf cat slots := h1
          obtain ⟨s0, hs0, hs0n, hs0f⟩ := mem_addedOf.mp h1'
          have hsmem : updSlot cat s0 ∈ (updatePass cat slots).1 := by
            rw [updatePass_fst]
            exact List.mem_map.mpr ⟨s0, hs0, rfl⟩
          have hsname : (updSlot cat s0).name = k := by rw [updSlot_name, hs0n]
          have hsnp : isPlaceholder (updSlot cat s0).name = false := by
            rw [hsname]
            exact hkeyfalse k hk
          have hsP1 : updSlot cat s0 ∈ merge cat slots :=
            fillPass_keeps_nonplaceholder cat (updatePass cat slots).1
              (updatePass cat slots).2 (updSlot cat s0) hsmem hsnp
          exact mem_addedOf.mpr ⟨updSlot cat s0, hsP1, hsname, hs0f⟩
        · exact mem_addedOf.mpr ⟨s2, hs2, hn, hf⟩
      apply fillPass_all_placed
      intro p hp
      exact hkeysP1 p.1 (List.mem_map.mpr ⟨p, hp, rfl⟩)
    · apply fillPass_no_placeholder
      intro s hs
      cases hb : isPlaceholder s.name with
      | false => rfl
      | true => exact absurd ⟨s, hs, hb⟩ hpl
  show (fillPass cat (updatePass cat (merge cat slots)).1
      (updatePass cat (merge cat slots)).2).1 = merge cat slots
  rw [hup2, hfill2]

/-- C5 as stated is false: with catalog
["Song 3" ↦ (72, 2), "X" ↦ (100, 3)] and slots named "Song 3" and
"Song 9", the second run of the merge changes the second slot (it receives
the still-unplaced title "Song 3"), so the two runs disagree. -/
theorem claim_C5_counterexample :
    merge
        [("Song 3", { title := "Song 3", bpm := 72, metro_time_sig := 2 }),
         ("X", { title := "X", bpm := 100, metro_time_sig := 3 })]
        (merge
          [("Song 3", { title := "Song 3", bpm := 72, metro_time_sig := 2 }),
           ("X", { title := "X", bpm := 100, metro_time_sig := 3 })]
          [{ name := "Song 3", bpm := 1, metro_time_sig := 1, extra := () },
           { name := "Song 9", bpm := 1, metro_time_sig := 1, extra := () }]) ≠
      merge
        [("Song 3", { title := "Song 3", bpm := 72, metro_time_sig := 2 }),
         ("X", { title := "X", bpm := 100, metro_time_sig := 3 })]
        [{ name := "Song 3", bpm := 1, metro_time_sig := 1, extra := () },
         { name := "Song 9", bpm := 1, metro_time_sig := 1, extra := () }] := by
  decide

/-- C5 amended: the merge is idempotent for every catalog none of whose
titles is itself placeholder-shaped (empty or starting with "Song "), the
only situation the counterexample exploits; the catalogs Step A builds from
real song titles of that shape are the exception the claim missed. -/
theorem claim_C5_idempotent_amended {α : Type} (cat : Catalog)
    (slots : List (Slot α)) (H : ∀ p ∈ cat, isPlaceholder p.1 = false) :
    merge cat (merge cat slots) = merge cat slots :=
  merge_idem cat H slots

/-- Witness for the amended C5: a one-entry catalog with an ordinary title
and one placeholder slot. -/
theorem claim_C5_idempotent_amended_witness :
    merge [("A", { title := "A", bpm := 100, metro_time_sig := 3 })]
        (merge [("A", { title := "A", bpm := 100, metro_time_sig := 3 })]
          [{ name := "Song 1", bpm := 1, metro_time_sig := 1, extra := () }]) =
      merge [("A", { title := "A", bpm := 100, metro_time_sig := 3 })]
        [{ name := "Song 1", bpm := 1, metro_time_sig := 1, extra := () }] :=
  claim_C5_idempotent_amended _ _ (by decide)

end PedalSync
